import Mathlib

/-!
Verification of the region-matching engine in
src/src/latlon_to_region/latlon_region.py.

Coordinates are embedded as rationals.  The geometry predicates of the
external shapely library (point-in-polygon contains, covered_by, and
STRtree bulk queries) are modelled by the standard even-odd
crossing-number rule with an explicit on-boundary test: contains is
true on the interior only (boundary excluded), covered_by on the
closure (boundary included).  All matcher functions are translated
directly from the source; Python exceptions become an Except monad,
the insertion-ordered province dictionary becomes an association list.
-/

namespace LatLonRegion

/-- A planar point, as constructed by shapely.Point(a, b): x is the first
constructor argument, y the second. -/
structure Point where
  x : ℚ
  y : ℚ
deriving DecidableEq, Repr

/-- A polygon: one shell ring plus hole rings, as shapely.Polygon(shell, holes).
Rings are vertex lists; the edge after the last vertex returns to the first
vertex (rings in the longhurst data are explicitly closed). -/
structure Polygon where
  shell : List Point
  holes : List (List Point)
deriving DecidableEq, Repr

/-- The cyclic edge list of a ring: consecutive vertex pairs, with a final
edge from the last vertex back to the first. -/
def ringEdges : List Point → List (Point × Point)
  | [] => []
  | a :: rest => (a :: rest).zip (rest ++ [a])

/-- Point p lies on the closed segment from a to b (exact rational test:
collinearity by cross product, plus coordinate-interval membership). -/
def onSegment (p a b : Point) : Bool :=
  decide ((b.x - a.x) * (p.y - a.y) = (b.y - a.y) * (p.x - a.x)) &&
  decide (min a.x b.x ≤ p.x) && decide (p.x ≤ max a.x b.x) &&
  decide (min a.y b.y ≤ p.y) && decide (p.y ≤ max a.y b.y)

/-- Point p lies on the ring (on one of its closed edges). -/
def onRing (p : Point) (ring : List Point) : Bool :=
  (ringEdges ring).any (fun e => onSegment p e.1 e.2)

/-- An edge straddles the horizontal line through height py: exactly one
endpoint lies strictly above it. -/
def straddles (py : ℚ) (e : Point × Point) : Bool :=
  decide (py < e.1.y) != decide (py < e.2.y)

/-- The x coordinate at which the edge meets the horizontal line through
p.y (meaningful when the edge straddles that line). -/
def crossX (p : Point) (e : Point × Point) : ℚ :=
  e.1.x + (e.2.x - e.1.x) * (p.y - e.1.y) / (e.2.y - e.1.y)

/-- The rightward ray from p crosses the edge (even-odd ray-casting rule). -/
def crossesRay (p : Point) (e : Point × Point) : Bool :=
  straddles p.y e && decide (p.x < crossX p e)

/-- Number of ring edges crossed by the rightward ray from p. -/
def crossingNumber (p : Point) (ring : List Point) : Nat :=
  (ringEdges ring).countP (crossesRay p)

/-- Even-odd rule: p is inside the region bounded by the ring iff the
crossing number is odd (reliable for points not on the ring). -/
def oddCrossings (p : Point) (ring : List Point) : Bool :=
  crossingNumber p ring % 2 == 1

/-- Model of shapely Polygon.contains(point): the point lies in the
interior of the polygon, strictly inside the shell (even-odd rule, not on
the shell ring) and outside the closure of every hole. -/
def Polygon.containsP (g : Polygon) (p : Point) : Bool :=
  oddCrossings p g.shell && !onRing p g.shell &&
    g.holes.all (fun h => !oddCrossings p h && !onRing p h)

/-- Model of shapely covered_by(point, polygon): the point lies in the
closure of the polygon, inside or on the shell ring, and not strictly
inside any hole. -/
def coveredByP (p : Point) (g : Polygon) : Bool :=
  (oddCrossings p g.shell || onRing p g.shell) &&
    g.holes.all (fun h => !oddCrossings p h || onRing p h)

/-- The boundary of a polygon: its shell ring together with every hole ring. -/
def Polygon.onBoundary (g : Polygon) (p : Point) : Bool :=
  onRing p g.shell || g.holes.any (fun h => onRing p h)

/-- A province record as built by parseLonghurstXML (latlon_region.py lines
292-297): name, code, bounding-box polygon, list of geometry polygons. -/
structure Province where
  provName : String
  provCode : String
  provBB : Polygon
  provGeoms : List Polygon
deriving DecidableEq, Repr

/-- The parsed province dictionary: an insertion-ordered association list
from fid to province (Python dicts preserve insertion order). -/
abbrev Catalog := List (String × Province)

/-- The bounding-box polygon built by parseLonghurstXML (line 261):
bb_Poly = [bb[0], (bb[0][0], bb[1][1]), bb[1], (bb[1][0], bb[0][1]), bb[0]]. -/
def bbPolygon (b0 b1 : Point) : Polygon :=
  { shell := [b0, ⟨b0.x, b1.y⟩, b1, ⟨b1.x, b0.y⟩, b0], holes := [] }

/-- Python exceptions raised by the matcher. -/
inductive Err where
  | assertionError
  | keyError
  | runtimeError
deriving DecidableEq, Repr

/-- _findMatchingBoundingBoxes (lines 335-346).  Note the query point is
shapely.Point(lat, lon): x is the latitude argument, y the longitude.
The dict comprehension over an insertion-ordered dict is a filter. -/
def findMatchingBoundingBoxes (lat lon : ℚ) (provinces : Catalog) : Catalog :=
  provinces.filter (fun fp => fp.2.provBB.containsP ⟨lat, lon⟩)

/-- _findMatchingProvinceFine (lines 349-362): for each candidate province,
keep it when some of its polygons contains the point (the break in the
source only short-circuits the scan over the polygons). -/
def findMatchingProvinceFine (lat lon : ℚ) (provinces : Catalog) : Catalog :=
  provinces.filter (fun fp => fp.2.provGeoms.any (fun g => g.containsP ⟨lat, lon⟩))

/-- The tree indices of the polygons covering p, in tree (insertion) order. -/
def treeMatches (treePolygons : List Polygon) (p : Point) : List Nat :=
  (treePolygons.enum.filter (fun jg => coveredByP p jg.2)).map (fun jg => jg.1)

/-- Model of shapely.STRtree(polygons).query(points, predicate="covered_by"):
all (input index, tree index) pairs whose point is covered by the indexed
polygon, grouped by input index in input order. -/
def strtreeQueryCoveredBy (treePolygons : List Polygon) (locs : List Point) :
    List (Nat × Nat) :=
  locs.enum.flatMap (fun ip => (treeMatches treePolygons ip.2).map (fun j => (ip.1, j)))

/-- _findMatchingProvinceTree (lines 365-371): again the query points are
shapely.Point(lat, lon) with x the latitude. -/
def findMatchingProvinceTree (latitude longitude : List ℚ)
    (provincesTree : List Polygon) : List (Nat × Nat) :=
  strtreeQueryCoveredBy provincesTree
    ((latitude.zip longitude).map (fun ll => Point.mk ll.1 ll.2))

/-- loc_region_id_map construction (lines 178-180): one slot per input point,
each query pair appended to its point's slot.  (List.set out of range is a
no-op; query pair indices are always in range.) -/
def buildLocRegionIdMap (n : Nat) (pairs : List (Nat × Nat)) : List (List Nat) :=
  pairs.foldl (fun acc pr => acc.set pr.1 ((acc.getD pr.1 []) ++ [pr.2]))
    (List.replicate n ([] : List Nat))

/-- The body of the loop of _find_region_tree (lines 183-213): an empty group
yields no match, a singleton group is resolved through polygons_fids and the
province dict (a missing fid would be a Python KeyError), a larger group
raises RuntimeError. -/
def resolveTreeGroup (provinces : Catalog) (polygonsFids : List String)
    (r : List Nat) : Except Err (Option Province) :=
  match r with
  | [] => .ok none
  | [j] =>
    match provinces.lookup (polygonsFids.getD j "") with
    | some prov => .ok (some prov)
    | none => .error .keyError
  | _ :: _ :: _ => .error .runtimeError

/-- A Python for-loop that appends one result per element and propagates the
first raised exception. -/
def exceptMap {α β : Type} (f : α → Except Err β) : List α → Except Err (List β)
  | [] => .ok []
  | x :: xs =>
    match f x with
    | .error e => .error e
    | .ok y =>
      match exceptMap f xs with
      | .error e => .error e
      | .ok ys => .ok (y :: ys)

/-- The body of the loop of _find_region_list (lines 140-162): bounding-box
prefilter, then the fine test; zero matches yield None, one match the
province record, several raise RuntimeError. -/
def resolveListPoint (provinces : Catalog) (lat lon : ℚ) :
    Except Err (Option Province) :=
  match findMatchingProvinceFine lat lon (findMatchingBoundingBoxes lat lon provinces) with
  | [] => .ok none
  | [fp] => .ok (some fp.2)
  | _ :: _ :: _ => .error .runtimeError

/-- _find_region_list (lines 136-164): zip the two coordinate lists (silently
truncating to the shorter) and resolve each point in order. -/
def findRegionList (latitude longitude : List ℚ) (provinces : Catalog) :
    Except Err (List (Option Province)) :=
  exceptMap (fun ll => resolveListPoint provinces ll.1 ll.2) (latitude.zip longitude)

/-- _find_region_tree (lines 167-215): assert equal lengths, query the tree
once for all points, group the returned pairs by point, resolve each group. -/
def findRegionTree (latitude longitude : List ℚ) (provinces : Catalog)
    (provincesTree : List Polygon) (polygonsFids : List String) :
    Except Err (List (Option Province)) :=
  if latitude.length = longitude.length then
    exceptMap (resolveTreeGroup provinces polygonsFids)
      (buildLocRegionIdMap latitude.length
        (findMatchingProvinceTree latitude longitude provincesTree))
  else .error .assertionError

/-- provinces_make_tree (lines 302-326): flatten all provinces' polygons in
catalog order, extending a parallel fid list by one fid per polygon. -/
def provinces_make_tree (provinces : Catalog) : List Polygon × List String :=
  provinces.foldl
    (fun acc fp =>
      (acc.1 ++ fp.2.provGeoms, acc.2 ++ List.replicate fp.2.provGeoms.length fp.1))
    (([] : List Polygon), ([] : List String))

/-- A latitude or longitude argument of find_region: a single float or a list. -/
inductive CoordArg where
  | single : ℚ → CoordArg
  | batch : List ℚ → CoordArg

/-- The provinces_tree argument of find_region: False (default, linear scan),
True (build the tree on the fly), or a pre-built STRtree. -/
inductive TreeArg where
  | noTree
  | computeTree
  | preBuilt : List Polygon → TreeArg

/-- The value returned by find_region: a bare result for a single-point call,
a list for a batch call. -/
inductive FindResult where
  | one : Option Province → FindResult
  | many : List (Option Province) → FindResult
deriving DecidableEq, Repr

/-- Whether find_region returned a bare (unwrapped) result. -/
def FindResult.isOne : FindResult → Bool
  | .one _ => true
  | .many _ => false

/-- How many per-point results find_region returned. -/
def FindResult.numResults : FindResult → Nat
  | .one _ => 1
  | .many rs => rs.length

/-- The strategy dispatch of find_region (lines 118-128): False selects the
linear scan; True builds tree and fids on the fly; a pre-built tree without
polygons_fids fails the assertion at line 121 before any query. -/
def findRegionCore (lats lons : List ℚ) (provinces : Catalog)
    (provinces_tree : TreeArg) (polygons_fids : Option (List String)) :
    Except Err (List (Option Province)) :=
  match provinces_tree with
  | .noTree => findRegionList lats lons provinces
  | .computeTree =>
    findRegionTree lats lons provinces (provinces_make_tree provinces).1
      (provinces_make_tree provinces).2
  | .preBuilt tree =>
    match polygons_fids with
    | none => .error .assertionError
    | some fids => findRegionTree lats lons provinces tree fids

/-- find_region (lines 62-133) with a provided parsed definition.  Mixed
float/list coordinate arguments fail the assertions at lines 110/112; a
single-point call unwraps the singleton result list (lines 130-131).  The
parse-from-file path (longhurst_definition=None) and plotting are I/O and
stay outside the model. -/
def find_region (latitude longitude : CoordArg) (longhurst_definition : Catalog)
    (provinces_tree : TreeArg) (polygons_fids : Option (List String)) :
    Except Err FindResult :=
  match latitude, longitude with
  | .single a, .single b =>
    match findRegionCore [a] [b] longhurst_definition provinces_tree polygons_fids with
    | .error e => .error e
    | .ok regions => .ok (.one (regions.getD 0 none))
  | .batch lats, .batch lons =>
    match findRegionCore lats lons longhurst_definition provinces_tree polygons_fids with
    | .error e => .error e
    | .ok regions => .ok (.many regions)
  | _, _ => .error .assertionError

/-! ### Concrete fixtures used by counterexamples and witnesses -/

/-- The square [0,2] x [0,2], explicitly closed like the rings in the data. -/
def square2 : Polygon :=
  { shell := [⟨0, 0⟩, ⟨2, 0⟩, ⟨2, 2⟩, ⟨0, 2⟩, ⟨0, 0⟩], holes := [] }

/-- A larger square containing square2. -/
def bigSquare : Polygon := bbPolygon ⟨-1, -1⟩ ⟨3, 3⟩

/-- One province whose geometry is square2, with a generous box. -/
def provA : Province :=
  { provName := "Province A", provCode := "AAAA",
    provBB := bbPolygon ⟨-1, -1⟩ ⟨3, 3⟩, provGeoms := [square2] }

def catA : Catalog := [("fidA", provA)]

/-- A province whose stored box ([0,2] x [0,2]) is smaller than its
geometry (the big square). -/
def provC : Province :=
  { provName := "Province C", provCode := "CCCC",
    provBB := bbPolygon ⟨0, 0⟩ ⟨2, 2⟩, provGeoms := [bigSquare] }

def catC : Catalog := [("fidC", provC)]

/-- A province listing the same square2 polygon twice. -/
def provD : Province :=
  { provName := "Province D", provCode := "DDDD",
    provBB := bbPolygon ⟨-1, -1⟩ ⟨3, 3⟩, provGeoms := [square2, square2] }

def catD : Catalog := [("fidD", provD)]

/-- A province whose box and geometry both equal the square [4,6] x [0,2]. -/
def provE : Province :=
  { provName := "Province E", provCode := "EEEE",
    provBB := bbPolygon ⟨4, 0⟩ ⟨6, 2⟩, provGeoms := [bbPolygon ⟨4, 0⟩ ⟨6, 2⟩] }

def catE : Catalog := [("fidE", provE)]

/-! ### Boolean and membership lemmas -/

theorem all_congr_on {α : Type} (l : List α) (f g : α → Bool)
    (h : ∀ x ∈ l, f x = g x) : l.all f = l.all g := by
  induction l with
  | nil => rfl
  | cons a t ih =>
    have hhead : f a = g a := h a (List.mem_cons_self a t)
    have htail : t.all f = t.all g :=
      ih (fun x hx => h x (List.mem_cons_of_mem a hx))
    simp only [List.all_cons, hhead, htail]

theorem holes_all_and_not_any (hs : List (List Point)) (p : Point) :
    (hs.all (fun h => !oddCrossings p h && !onRing p h)) =
      ((hs.all (fun h => !oddCrossings p h || onRing p h)) &&
        !(hs.any (fun h => onRing p h))) := by
  induction hs with
  | nil => rfl
  | cons h t ih =>
    simp only [List.all_cons, List.any_cons, Bool.not_or]
    cases hr : onRing p h <;> cases ho : oddCrossings p h <;>
      simp [ih, Bool.and_assoc, Bool.and_comm, Bool.and_left_comm]

theorem containsP_eq_coveredBy_and_not_boundary (g : Polygon) (p : Point) :
    g.containsP p = (coveredByP p g && !g.onBoundary p) := by
  unfold Polygon.containsP coveredByP Polygon.onBoundary
  rw [holes_all_and_not_any]
  cases hr : onRing p g.shell <;> cases ho : oddCrossings p g.shell <;>
    simp [Bool.and_assoc, Bool.and_comm, Bool.and_left_comm]

theorem containsP_false_of_onRing (g : Polygon) (p : Point)
    (h : onRing p g.shell = true) : g.containsP p = false := by
  unfold Polygon.containsP
  simp [h]

theorem coveredByP_eq_containsP_off_boundary (g : Polygon) (p : Point)
    (hs : onRing p g.shell = false) (hh : ∀ h ∈ g.holes, onRing p h = false) :
    coveredByP p g = g.containsP p := by
  unfold Polygon.containsP coveredByP
  rw [hs]
  rw [all_congr_on g.holes _ (fun h => !oddCrossings p h && !onRing p h)
    (fun h hmem => by simp [hh h hmem])]
  simp

theorem mem_findMatchingProvinceFine (lat lon : ℚ) (provinces : Catalog)
    (fp : String × Province) :
    fp ∈ findMatchingProvinceFine lat lon provinces ↔
      fp ∈ provinces ∧ fp.2.provGeoms.any (fun g => g.containsP ⟨lat, lon⟩) = true := by
  unfold findMatchingProvinceFine
  exact List.mem_filter

theorem mem_findMatchingBoundingBoxes (lat lon : ℚ) (provinces : Catalog)
    (fp : String × Province) :
    fp ∈ findMatchingBoundingBoxes lat lon provinces ↔
      fp ∈ provinces ∧ fp.2.provBB.containsP ⟨lat, lon⟩ = true := by
  unfold findMatchingBoundingBoxes
  exact List.mem_filter

/-! ### exceptMap: loop characterizations -/

theorem exceptMap_ok_iff {α β : Type} (f : α → Except Err β) (xs : List α)
    (ys : List β) :
    exceptMap f xs = .ok ys ↔ List.Forall₂ (fun x y => f x = .ok y) xs ys := by
  induction xs generalizing ys with
  | nil =>
    cases ys <;> simp [exceptMap]
  | cons x xs ih =>
    constructor
    · intro h
      simp only [exceptMap] at h
      cases hf : f x with
      | error e => rw [hf] at h; exact Except.noConfusion h
      | ok y =>
        rw [hf] at h
        cases hm : exceptMap f xs with
        | error e => rw [hm] at h; exact Except.noConfusion h
        | ok ys' =>
          rw [hm] at h
          obtain rfl : y :: ys' = ys := by injection h
          exact List.Forall₂.cons hf ((ih ys').mp hm)
    · intro h
      cases h with
      | cons hxy htail =>
        simp only [exceptMap, hxy, (ih _).mpr htail]

theorem exceptMap_error_iff {α β : Type} (f : α → Except Err β) (xs : List α)
    (E : Err) (hE : ∀ x ∈ xs, ∀ e, f x = .error e → e = E) :
    exceptMap f xs = .error E ↔ ∃ x ∈ xs, f x = .error E := by
  induction xs with
  | nil => simp [exceptMap]
  | cons x xs ih =>
    have hrec := ih (fun a ha e' h' => hE a (List.mem_cons_of_mem x ha) e' h')
    simp only [exceptMap]
    cases hf : f x with
    | error e =>
      have he : e = E := hE x (List.mem_cons_self x xs) e hf
      subst he
      simp only [List.mem_cons]
      exact ⟨fun _ => ⟨x, Or.inl rfl, hf⟩, fun _ => by trivial⟩
    | ok y =>
      cases hm : exceptMap f xs with
      | error e =>
        rw [hm] at hrec
        simp only [List.mem_cons]
        constructor
        · intro h
          obtain ⟨a, ha, hfa⟩ := hrec.mp h
          exact ⟨a, Or.inr ha, hfa⟩
        · intro h
          obtain ⟨a, ha, hfa⟩ := h
          rcases ha with rfl | ha
          · rw [hf] at hfa; exact Except.noConfusion hfa
          · exact hrec.mpr ⟨a, ha, hfa⟩
      | ok ys =>
        rw [hm] at hrec
        simp only [List.mem_cons]
        constructor
        · intro h; exact Except.noConfusion h
        · intro h
          obtain ⟨a, ha, hfa⟩ := h
          rcases ha with rfl | ha
          · rw [hf] at hfa; exact Except.noConfusion hfa
          · exact Except.noConfusion (hrec.mpr ⟨a, ha, hfa⟩)

theorem exceptMap_ok_length {α β : Type} (f : α → Except Err β) (xs : List α)
    (ys : List β) (h : exceptMap f xs = .ok ys) : ys.length = xs.length :=
  ((List.forall₂_iff_get.mp ((exceptMap_ok_iff f xs ys).mp h)).1).symm

theorem exceptMap_ok_get {α β : Type} (f : α → Except Err β) (xs : List α)
    (ys : List β) (h : exceptMap f xs = .ok ys) (i : Nat) (hi : i < xs.length)
    (d : α) (d' : β) : f (xs.getD i d) = .ok (ys.getD i d') := by
  have h2 := List.forall₂_iff_get.mp ((exceptMap_ok_iff f xs ys).mp h)
  have hlen := h2.1
  have h3 := h2.2 i hi (by omega)
  rw [List.getD_eq_getElem xs d hi, List.getD_eq_getElem ys d' (by omega)]
  simpa [List.get_eq_getElem] using h3

/-! ### provinces_make_tree: the flattened polygon and fid lists -/

theorem zip_replicate_left {α β : Type} (a : α) (l : List β) :
    (List.replicate l.length a).zip l = l.map (fun b => (a, b)) := by
  induction l with
  | nil => rfl
  | cons b t ih => simp [List.replicate_succ, ih]

theorem provinces_make_tree_eq (provinces : Catalog) :
    provinces_make_tree provinces =
      (provinces.flatMap (fun fp => fp.2.provGeoms),
       provinces.flatMap (fun fp => List.replicate fp.2.provGeoms.length fp.1)) := by
  have key : ∀ (ps : Catalog) (acc : List Polygon × List String),
      ps.foldl (fun acc fp =>
        (acc.1 ++ fp.2.provGeoms,
         acc.2 ++ List.replicate fp.2.provGeoms.length fp.1)) acc =
      (acc.1 ++ ps.flatMap (fun fp => fp.2.provGeoms),
       acc.2 ++ ps.flatMap (fun fp => List.replicate fp.2.provGeoms.length fp.1)) := by
    intro ps
    induction ps with
    | nil => intro acc; simp
    | cons fp rest ih =>
      intro acc
      simp [List.foldl_cons, ih, List.flatMap_cons, List.append_assoc]
  unfold provinces_make_tree
  simpa using key provinces ([], [])

theorem make_tree_lengths (provinces : Catalog) :
    ((provinces_make_tree provinces).2).length =
      ((provinces_make_tree provinces).1).length := by
  rw [provinces_make_tree_eq]
  induction provinces with
  | nil => rfl
  | cons fp rest ih => simp_all [List.flatMap_cons]

theorem make_tree_zip (provinces : Catalog) :
    ((provinces_make_tree provinces).2).zip (provinces_make_tree provinces).1 =
      provinces.flatMap (fun fp => fp.2.provGeoms.map (fun g => (fp.1, g))) := by
  rw [provinces_make_tree_eq]
  induction provinces with
  | nil => rfl
  | cons fp rest ih =>
    simp only [List.flatMap_cons]
    rw [List.zip_append (by simp), zip_replicate_left]
    simp_all

theorem make_tree_owner (provinces : Catalog) (j : Nat)
    (hj : j < ((provinces_make_tree provinces).1).length) :
    ∃ fp ∈ provinces,
      ((provinces_make_tree provinces).2).getD j "" = fp.1 ∧
      ((provinces_make_tree provinces).1).getD j ⟨[], []⟩ ∈ fp.2.provGeoms := by
  have hlen := make_tree_lengths provinces
  have hzlen :
      (((provinces_make_tree provinces).2).zip (provinces_make_tree provinces).1).length =
        ((provinces_make_tree provinces).1).length := by
    simp [List.length_zip, hlen]
  have hjz : j < (((provinces_make_tree provinces).2).zip
      (provinces_make_tree provinces).1).length := by omega
  have hget : (((provinces_make_tree provinces).2).zip
      (provinces_make_tree provinces).1)[j] =
      (((provinces_make_tree provinces).2).getD j "",
        ((provinces_make_tree provinces).1).getD j ⟨[], []⟩) := by
    rw [List.getElem_zip]
    rw [List.getD_eq_getElem _ _ (by omega), List.getD_eq_getElem _ _ hj]
  have hmem : (((provinces_make_tree provinces).2).getD j "",
      ((provinces_make_tree provinces).1).getD j ⟨[], []⟩) ∈
      provinces.flatMap (fun fp => fp.2.provGeoms.map (fun g => (fp.1, g))) := by
    rw [← make_tree_zip]
    rw [← hget]
    exact List.getElem_mem hjz
  obtain ⟨fp, hfp, hpair⟩ := List.mem_flatMap.mp hmem
  obtain ⟨g, hg, hgeq⟩ := List.mem_map.mp hpair
  rw [Prod.ext_iff] at hgeq
  obtain ⟨h1, h2⟩ := hgeq
  refine ⟨fp, hfp, ?_, ?_⟩
  · exact h1.symm
  · simp only at h2
    rw [← h2]
    exact hg

theorem make_tree_mem (provinces : Catalog) (fp : String × Province) (g : Polygon)
    (hfp : fp ∈ provinces) (hg : g ∈ fp.2.provGeoms) :
    ∃ j, j < ((provinces_make_tree provinces).1).length ∧
      ((provinces_make_tree provinces).1).getD j ⟨[], []⟩ = g ∧
      ((provinces_make_tree provinces).2).getD j "" = fp.1 := by
  have hlen := make_tree_lengths provinces
  have hmem : (fp.1, g) ∈
      provinces.flatMap (fun fq => fq.2.provGeoms.map (fun h => (fq.1, h))) :=
    List.mem_flatMap.mpr ⟨fp, hfp, List.mem_map.mpr ⟨g, hg, rfl⟩⟩
  rw [← make_tree_zip] at hmem
  obtain ⟨j, hjz, hget⟩ := List.getElem_of_mem hmem
  have hjz2 : j < ((provinces_make_tree provinces).1).length := by
    have hzl : (((provinces_make_tree provinces).2).zip
        (provinces_make_tree provinces).1).length =
        min ((provinces_make_tree provinces).2).length
          ((provinces_make_tree provinces).1).length := List.length_zip _ _
    omega
  refine ⟨j, hjz2, ?_, ?_⟩
  · rw [List.getElem_zip] at hget
    rw [List.getD_eq_getElem _ _ hjz2]
    exact congrArg Prod.snd hget
  · rw [List.getElem_zip] at hget
    rw [List.getD_eq_getElem _ _ (by omega)]
    exact congrArg Prod.fst hget

/-! ### Association-list lookup and unique filters -/

theorem lookup_eq_some_of_mem (provinces : Catalog)
    (hnodup : (provinces.map Prod.fst).Nodup) (fid : String) (prov : Province)
    (hmem : (fid, prov) ∈ provinces) :
    provinces.lookup fid = some prov := by
  induction provinces with
  | nil => cases hmem
  | cons fp rest ih =>
    rcases List.mem_cons.mp hmem with heq | hmem'
    · rw [← heq]
      simp [List.lookup]
    · have hkey : ¬fp.1 = fid := by
        intro h
        have : fid ∈ rest.map Prod.fst :=
          List.mem_map.mpr ⟨(fid, prov), hmem', rfl⟩
        rw [← h] at this
        exact (List.nodup_cons.mp (by simpa using hnodup)).1 this
      have htail := ih (List.nodup_cons.mp (by simpa using hnodup)).2 hmem'
      cases fp with
      | mk k v =>
        simp only at hkey
        have hne : (fid == k) = false :=
          beq_eq_false_iff_ne.mpr (fun h => hkey h.symm)
        simp [List.lookup, hne, htail]

theorem filter_eq_singleton_of_unique {α : Type} (l : List α) (q : α → Bool)
    (a : α) (ha : a ∈ l) (hq : ∀ x ∈ l, (q x = true ↔ x = a)) (hnd : l.Nodup) :
    l.filter q = [a] := by
  induction l with
  | nil => cases ha
  | cons b t ih =>
    rcases List.mem_cons.mp ha with rfl | ha'
    · have hqa : q a = true := (hq a (by simp)).mpr rfl
      have ht : t.filter q = [] := by
        rw [List.filter_eq_nil_iff]
        intro x hx hqx
        have hxa : x = a := (hq x (by simp [hx])).mp hqx
        rw [hxa] at hx
        exact (List.nodup_cons.mp hnd).1 hx
      simp [List.filter_cons, hqa, ht]
    · have hb : q b = false := by
        rcases hqb : q b with _ | _
        · rfl
        · have : b = a := (hq b (by simp)).mp hqb
          rw [this] at hnd
          exact absurd ha' (List.nodup_cons.mp hnd).1
      have htail := ih ha' (fun x hx => hq x (by simp [hx]))
        (List.nodup_cons.mp hnd).2
      simp [List.filter_cons, hb, htail]

theorem mem_unique_of_key_nodup (provinces : Catalog)
    (hnodup : (provinces.map Prod.fst).Nodup) (fp fq : String × Province)
    (hfp : fp ∈ provinces) (hfq : fq ∈ provinces) (hkey : fp.1 = fq.1) :
    fp = fq := by
  induction provinces with
  | nil => cases hfp
  | cons fr rest ih =>
    rw [List.map_cons] at hnodup
    have hnd := List.nodup_cons.mp hnodup
    rcases List.mem_cons.mp hfp with rfl | hfp' <;>
      rcases List.mem_cons.mp hfq with rfl | hfq'
    · rfl
    · exact absurd (by rw [hkey]; exact List.mem_map.mpr ⟨fq, hfq', rfl⟩) hnd.1
    · exact absurd (by rw [← hkey]; exact List.mem_map.mpr ⟨fp, hfp', rfl⟩) hnd.1
    · exact ih hnd.2 hfp' hfq'

/-! ### Grouping of the bulk query results by input point -/

theorem buildFold_length (ps : List (Nat × Nat)) :
    ∀ (acc : List (List Nat)),
      (ps.foldl (fun acc pr => acc.set pr.1 ((acc.getD pr.1 []) ++ [pr.2])) acc).length
        = acc.length := by
  induction ps with
  | nil => intro acc; rfl
  | cons pr rest ih =>
    intro acc
    rw [List.foldl_cons, ih, List.length_set]

theorem buildLocRegionIdMap_length (n : Nat) (pairs : List (Nat × Nat)) :
    (buildLocRegionIdMap n pairs).length = n := by
  unfold buildLocRegionIdMap
  rw [buildFold_length]
  exact List.length_replicate n []

theorem buildFold_getD (ps : List (Nat × Nat)) :
    ∀ (acc : List (List Nat)) (k : Nat), k < acc.length →
      ((ps.foldl (fun acc pr => acc.set pr.1 ((acc.getD pr.1 []) ++ [pr.2])) acc).getD k [])
        = acc.getD k [] ++ (ps.filter (fun pr => pr.1 == k)).map (fun pr => pr.2) := by
  induction ps with
  | nil => intro acc k hk; simp
  | cons pr rest ih =>
    intro acc k hk
    rw [List.foldl_cons]
    rw [ih _ k (by rw [List.length_set]; omega)]
    by_cases hpk : pr.1 = k
    · subst hpk
      rw [List.filter_cons_of_pos (by simp)]
      rw [List.getD_eq_getElem _ _ (by rw [List.length_set]; omega),
        List.getElem_set_self]
      rw [List.map_cons, List.append_assoc]
      rfl
    · rw [List.filter_cons_of_neg (by simp [hpk])]
      rw [List.getD_eq_getElem _ _ (by rw [List.length_set]; omega),
        List.getElem_set_ne hpk, ← List.getD_eq_getElem acc [] hk]

theorem buildLocRegionIdMap_getD (n : Nat) (pairs : List (Nat × Nat)) (k : Nat)
    (hk : k < n) :
    (buildLocRegionIdMap n pairs).getD k [] =
      (pairs.filter (fun pr => pr.1 == k)).map (fun pr => pr.2) := by
  unfold buildLocRegionIdMap
  rw [buildFold_getD pairs _ k (by simp [hk])]
  simp

theorem strtree_aux (polys : List Polygon) :
    ∀ (locs : List Point) (s k : Nat),
      (((locs.enumFrom s).flatMap
          (fun ip => (treeMatches polys ip.2).map (fun j => (ip.1, j)))).filter
        (fun pr => pr.1 == k)) =
      if s ≤ k ∧ k - s < locs.length then
        (treeMatches polys (locs.getD (k - s) ⟨0, 0⟩)).map (fun j => (k, j))
      else [] := by
  intro locs
  induction locs with
  | nil =>
    intro s k
    simp [List.enumFrom]
  | cons p rest ih =>
    intro s k
    rw [List.enumFrom_cons, List.flatMap_cons, List.filter_append]
    have hhead : ((treeMatches polys p).map (fun j => (s, j))).filter
        (fun pr => pr.1 == k) =
        if s = k then (treeMatches polys p).map (fun j => (k, j)) else [] := by
      by_cases hsk : s = k
      · subst hsk
        rw [List.filter_map, if_pos rfl]
        have : ((fun pr : Nat × Nat => pr.1 == s) ∘ (fun j => (s, j))) =
            fun _ => true := by
          funext j; simp
        rw [this, List.filter_true]
      · rw [List.filter_map, if_neg hsk]
        have : ((fun pr : Nat × Nat => pr.1 == k) ∘ (fun j => (s, j))) =
            fun _ => false := by
          funext j; simp [hsk]
        rw [this, List.filter_false, List.map_nil]
    rw [hhead, ih (s + 1) k]
    by_cases hsk : s = k
    · subst hsk
      rw [if_pos rfl]
      rw [if_neg (show ¬(s + 1 ≤ s ∧ s - (s + 1) < rest.length) by omega)]
      rw [if_pos (show s ≤ s ∧ s - s < (p :: rest).length by
        refine ⟨le_refl s, ?_⟩
        rw [List.length_cons]
        omega)]
      have hz : s - s = 0 := by omega
      rw [hz, List.getD_cons_zero, List.append_nil]
    · rw [if_neg hsk, List.nil_append]
      by_cases hle : s ≤ k ∧ k - s < rest.length + 1
      · have hle2 : s + 1 ≤ k ∧ k - (s + 1) < rest.length := by omega
        rw [if_pos hle2, if_pos (by simpa [List.length_cons] using hle)]
        obtain ⟨m, hm⟩ : ∃ m, k - s = m + 1 := ⟨k - s - 1, by omega⟩
        rw [hm]
        have hm2 : k - (s + 1) = m := by omega
        rw [hm2, List.getD_cons_succ]
      · have hle2 : ¬(s + 1 ≤ k ∧ k - (s + 1) < rest.length) := by omega
        rw [if_neg hle2, if_neg (by simpa [List.length_cons] using hle)]

theorem locRegionIdMap_eq (latitude longitude : List ℚ) (polys : List Polygon)
    (hlen : latitude.length = longitude.length) (k : Nat) (hk : k < latitude.length) :
    (buildLocRegionIdMap latitude.length
        (findMatchingProvinceTree latitude longitude polys)).getD k [] =
      treeMatches polys ⟨latitude.getD k 0, longitude.getD k 0⟩ := by
  rw [buildLocRegionIdMap_getD _ _ k hk]
  unfold findMatchingProvinceTree strtreeQueryCoveredBy
  have henum : ∀ (l : List Point), l.enum = l.enumFrom 0 := fun l => rfl
  rw [henum, strtree_aux]
  have hlocs : ((latitude.zip longitude).map
      (fun ll => Point.mk ll.1 ll.2)).length = latitude.length := by
    simp [List.length_zip, hlen]
  rw [if_pos (by constructor <;> omega)]
  have hz : k - 0 = k := by omega
  rw [hz]
  have hget : ((latitude.zip longitude).map
      (fun ll => Point.mk ll.1 ll.2)).getD k ⟨0, 0⟩ =
      ⟨latitude.getD k 0, longitude.getD k 0⟩ := by
    rw [List.getD_eq_getElem _ _ (by omega)]
    rw [List.getElem_map, List.getElem_zip]
    rw [List.getD_eq_getElem _ _ hk, List.getD_eq_getElem _ _ (by omega)]
  rw [hget]
  rw [List.map_map]
  have hcomp : ((fun pr : Nat × Nat => pr.2) ∘ (fun j => (k, j))) = id := by
    funext j; rfl
  rw [hcomp, List.map_id]

/-! ### The even-odd rule: a point inside a ring is bounded by its vertices -/

theorem mem_ringEdges (ring : List Point) (e : Point × Point)
    (he : e ∈ ringEdges ring) : e.1 ∈ ring ∧ e.2 ∈ ring := by
  obtain ⟨u, v⟩ := e
  unfold ringEdges at he
  cases ring with
  | nil => cases he
  | cons a rest =>
    have h1 := List.of_mem_zip he
    refine ⟨h1.1, ?_⟩
    rcases List.mem_append.mp h1.2 with h | h
    · exact List.mem_cons_of_mem a h
    · rw [List.mem_singleton.mp h]
      exact List.mem_cons_self a rest

theorem chain_straddle_parity (py : ℚ) :
    ∀ (xs : List Point) (a c : Point),
      (((a :: xs).zip (xs ++ [c])).countP (straddles py)) % 2 =
        (if decide (py < a.y) = decide (py < c.y) then 0 else 1) := by
  intro xs
  induction xs with
  | nil =>
    intro a c
    rw [List.nil_append, List.zip_cons_cons, List.zip_nil_left, List.countP_cons,
      List.countP_nil]
    by_cases h1 : py < a.y <;> by_cases h2 : py < c.y <;>
      simp [straddles, h1, h2]
  | cons b xs ih =>
    intro a c
    have hz : (b :: xs) ++ [c] = b :: (xs ++ [c]) := rfl
    rw [hz, List.zip_cons_cons, List.countP_cons]
    have hih := ih b c
    by_cases h1 : py < a.y <;> by_cases h2 : py < b.y <;> by_cases h3 : py < c.y <;>
      simp [straddles, h1, h2, h3] at hih ⊢ <;>
      omega

theorem ring_straddle_even (py : ℚ) (ring : List Point) :
    ((ringEdges ring).countP (straddles py)) % 2 = 0 := by
  cases ring with
  | nil => rfl
  | cons a rest =>
    unfold ringEdges
    rw [chain_straddle_parity]
    simp

theorem exists_cross_of_odd (p : Point) (ring : List Point)
    (h : oddCrossings p ring = true) :
    ∃ e ∈ ringEdges ring, crossesRay p e = true := by
  unfold oddCrossings crossingNumber at h
  rw [beq_iff_eq] at h
  have hpos : 0 < (ringEdges ring).countP (crossesRay p) := by omega
  exact List.countP_pos_iff.mp hpos

theorem convex_between (u v t : ℚ) (ht0 : 0 ≤ t) (ht1 : t ≤ 1) :
    min u v ≤ u + (v - u) * t ∧ u + (v - u) * t ≤ max u v := by
  rcases le_total u v with h | h
  · rw [min_eq_left h, max_eq_right h]
    constructor <;> nlinarith
  · rw [min_eq_right h, max_eq_left h]
    constructor <;> nlinarith

theorem straddles_cases (p : Point) (a b : Point)
    (h : straddles p.y (a, b) = true) :
    (p.y < a.y ∧ b.y ≤ p.y) ∨ (p.y < b.y ∧ a.y ≤ p.y) := by
  unfold straddles at h
  by_cases h1 : p.y < a.y <;> by_cases h2 : p.y < b.y
  · simp [h1, h2] at h
  · exact Or.inl ⟨h1, not_lt.mp h2⟩
  · exact Or.inr ⟨h2, not_lt.mp h1⟩
  · simp [h1, h2] at h

theorem straddle_t_bounds (p : Point) (a b : Point)
    (h : straddles p.y (a, b) = true) :
    0 ≤ (p.y - a.y) / (b.y - a.y) ∧ (p.y - a.y) / (b.y - a.y) ≤ 1 := by
  rcases straddles_cases p a b h with ⟨h1, h2⟩ | ⟨h1, h2⟩
  · have hd : b.y - a.y < 0 := by linarith
    constructor
    · exact le_of_lt (div_pos_iff.mpr (Or.inr ⟨by linarith, hd⟩))
    · rw [div_le_one_iff]
      exact Or.inr (Or.inr ⟨hd, by linarith⟩)
  · have hd : 0 < b.y - a.y := by linarith
    constructor
    · exact div_nonneg (by linarith) (by linarith)
    · rw [div_le_one hd]
      linarith

theorem crossX_eq_convex (p : Point) (a b : Point) :
    crossX p (a, b) = a.x + (b.x - a.x) * ((p.y - a.y) / (b.y - a.y)) := by
  unfold crossX
  rw [mul_div_assoc]

theorem crossX_bounds (p : Point) (e : Point × Point)
    (h : straddles p.y e = true) :
    min e.1.x e.2.x ≤ crossX p e ∧ crossX p e ≤ max e.1.x e.2.x := by
  obtain ⟨a, b⟩ := e
  rw [crossX_eq_convex]
  have ht := straddle_t_bounds p a b h
  exact convex_between a.x b.x _ ht.1 ht.2

theorem crossX_on_segment (p : Point) (e : Point × Point)
    (h : straddles p.y e = true) (hx : crossX p e = p.x) :
    onSegment p e.1 e.2 = true := by
  obtain ⟨a, b⟩ := e
  have hd : b.y - a.y ≠ 0 := by
    rcases straddles_cases p a b h with ⟨h1, h2⟩ | ⟨h1, h2⟩ <;> intro hc <;> linarith
  have hxb := crossX_bounds p (a, b) h
  rw [hx] at hxb
  have hcol : (b.x - a.x) * (p.y - a.y) = (b.y - a.y) * (p.x - a.x) := by
    rw [crossX_eq_convex] at hx
    have h2 : (b.x - a.x) * ((p.y - a.y) / (b.y - a.y)) = p.x - a.x := by
      linarith
    rw [mul_div_assoc'] at h2
    have h3 := (div_eq_iff hd).mp h2
    linarith [h3]
  have hyb : min a.y b.y ≤ p.y ∧ p.y ≤ max a.y b.y := by
    rcases straddles_cases p a b h with ⟨h1, h2⟩ | ⟨h1, h2⟩
    · exact ⟨le_trans (min_le_right _ _) h2, le_trans (le_of_lt h1) (le_max_left _ _)⟩
    · exact ⟨le_trans (min_le_left _ _) h2, le_trans (le_of_lt h1) (le_max_right _ _)⟩
  simp only [onSegment, Bool.and_eq_true, decide_eq_true_eq]
  exact ⟨⟨⟨⟨hcol, hxb.1⟩, hxb.2⟩, hyb.1⟩, hyb.2⟩

theorem odd_offRing_bounds (ring : List Point) (p : Point) (x0 x1 y0 y1 : ℚ)
    (hv : ∀ v ∈ ring, x0 ≤ v.x ∧ v.x ≤ x1 ∧ y0 ≤ v.y ∧ v.y ≤ y1)
    (hodd : oddCrossings p ring = true)
    (hon : onRing p ring = false) :
    x0 < p.x ∧ p.x < x1 ∧ y0 ≤ p.y ∧ p.y < y1 := by
  obtain ⟨e, he, hcross⟩ := exists_cross_of_odd p ring hodd
  obtain ⟨he1, he2⟩ := mem_ringEdges ring e he
  unfold crossesRay at hcross
  rw [Bool.and_eq_true] at hcross
  have hstr : straddles p.y e = true := hcross.1
  have hlt : p.x < crossX p e := of_decide_eq_true hcross.2
  have hxb := crossX_bounds p e hstr
  have hv1 := hv e.1 he1
  have hv2 := hv e.2 he2
  have hpx1 : p.x < x1 :=
    lt_of_lt_of_le hlt (le_trans hxb.2 (max_le hv1.2.1 hv2.2.1))
  have hy : y0 ≤ p.y ∧ p.y < y1 := by
    obtain ⟨u, v⟩ := e
    rcases straddles_cases p u v hstr with ⟨h1, h2⟩ | ⟨h1, h2⟩
    · exact ⟨le_trans hv2.2.2.1 h2, lt_of_lt_of_le h1 hv1.2.2.2⟩
    · exact ⟨le_trans hv1.2.2.1 h2, lt_of_lt_of_le h1 hv2.2.2.2⟩
  have hx0 : x0 < p.x := by
    by_contra hle
    push_neg at hle
    have hall : ∀ e2 ∈ ringEdges ring, crossesRay p e2 = straddles p.y e2 := by
      intro e2 he2'
      unfold crossesRay
      cases hs : straddles p.y e2 with
      | false => simp
      | true =>
        simp only [Bool.true_and]
        have hb := crossX_bounds p e2 hs
        obtain ⟨hm1, hm2⟩ := mem_ringEdges ring e2 he2'
        have hge : x0 ≤ crossX p e2 :=
          le_trans (le_min (hv e2.1 hm1).1 (hv e2.2 hm2).1) hb.1
        rcases lt_or_eq_of_le (le_trans hle hge) with hlt2 | heq
        · simp [hlt2]
        · have hseg := crossX_on_segment p e2 hs heq.symm
          have honr : onRing p ring = true := by
            unfold onRing
            rw [List.any_eq_true]
            exact ⟨e2, he2', hseg⟩
          rw [honr] at hon
          cases hon
    have hcount : (ringEdges ring).countP (crossesRay p) =
        (ringEdges ring).countP (straddles p.y) := by
      apply List.countP_congr
      intro e2 he2'
      rw [hall e2 he2']
    unfold oddCrossings crossingNumber at hodd
    rw [beq_iff_eq] at hodd
    rw [hcount] at hodd
    have heven := ring_straddle_even p.y ring
    omega
  exact ⟨hx0, hpx1, hy.1, hy.2⟩

theorem bbPolygon_contains_of_strict (b0 b1 p : Point)
    (hx0 : b0.x < p.x) (hx1 : p.x < b1.x) (hy0 : b0.y < p.y) (hy1 : p.y < b1.y) :
    (bbPolygon b0 b1).containsP p = true := by
  have hA : ¬p.y < b0.y := not_lt.mpr hy0.le
  have hC : ¬p.x < b0.x := not_lt.mpr hx0.le
  have hI : ¬p.x ≤ b0.x := not_le.mpr hx0
  have hE : ¬(0 = (b1.y - b0.y) * (p.x - b0.x)) := by
    have : 0 < (b1.y - b0.y) * (p.x - b0.x) := mul_pos (by linarith) (by linarith)
    intro h
    linarith [this]
  have hF : ¬((b1.x - b0.x) * (p.y - b1.y) = 0) := by
    have : (b1.x - b0.x) * (p.y - b1.y) < 0 :=
      mul_neg_of_pos_of_neg (by linarith) (by linarith)
    intro h
    linarith [this]
  have hG : ¬(0 = (b0.y - b1.y) * (p.x - b1.x)) := by
    have : 0 < (b0.y - b1.y) * (p.x - b1.x) :=
      mul_pos_of_neg_of_neg (by linarith) (by linarith)
    intro h
    linarith [this]
  have hH : ¬((b0.x - b1.x) * (p.y - b0.y) = 0) := by
    have : (b0.x - b1.x) * (p.y - b0.y) < 0 :=
      mul_neg_of_neg_of_pos (by linarith) (by linarith)
    intro h
    linarith [this]
  simp [bbPolygon, Polygon.containsP, oddCrossings, crossingNumber, ringEdges,
    crossesRay, straddles, crossX, onRing, onSegment, hA, hC, hI, hE, hF, hG, hH,
    hx1, hy1, sub_self]

theorem bbPolygon_onRing_bottom (b0 b1 p : Point)
    (hy : p.y = b0.y) (hx0 : b0.x ≤ p.x) (hx1 : p.x ≤ b1.x) :
    onRing p (bbPolygon b0 b1).shell = true := by
  unfold bbPolygon onRing ringEdges
  simp only [List.cons_append, List.nil_append, List.zip_cons_cons,
    List.zip_nil_left, List.any_cons, List.any_nil, Bool.or_eq_true]
  refine Or.inr (Or.inr (Or.inr (Or.inl ?_)))
  simp only [onSegment, Bool.and_eq_true, decide_eq_true_eq]
  refine ⟨⟨⟨⟨?_, ?_⟩, ?_⟩, ?_⟩, ?_⟩
  · simp [hy]
  · exact le_trans (min_le_right _ _) hx0
  · exact le_trans hx1 (le_max_left _ _)
  · simp [hy]
  · simp [hy]

/-! ### Result-shape helpers for find_region -/

theorem findRegionList_ok_length (latitude longitude : List ℚ) (provinces : Catalog)
    (rs : List (Option Province))
    (h : findRegionList latitude longitude provinces = .ok rs) :
    rs.length = (latitude.zip longitude).length := by
  unfold findRegionList at h
  exact exceptMap_ok_length _ _ _ h

theorem findRegionTree_ok_length (latitude longitude : List ℚ) (provinces : Catalog)
    (tree : List Polygon) (fids : List String) (rs : List (Option Province))
    (h : findRegionTree latitude longitude provinces tree fids = .ok rs) :
    rs.length = latitude.length := by
  unfold findRegionTree at h
  by_cases hl : latitude.length = longitude.length
  · rw [if_pos hl] at h
    have h2 := exceptMap_ok_length _ _ _ h
    rw [buildLocRegionIdMap_length] at h2
    exact h2
  · rw [if_neg hl] at h
    exact Except.noConfusion h

/-! ### Per-point resolution characterizations -/

theorem mem_iff_getD {α : Type} (l : List α) (d : α) (x : α) :
    x ∈ l ↔ ∃ k, k < l.length ∧ l.getD k d = x := by
  constructor
  · intro h
    obtain ⟨k, hk, he⟩ := List.getElem_of_mem h
    exact ⟨k, hk, by rw [List.getD_eq_getElem _ _ hk]; exact he⟩
  · rintro ⟨k, hk, he⟩
    rw [← he, List.getD_eq_getElem _ _ hk]
    exact List.getElem_mem hk

theorem resolveListPoint_error_runtime (provinces : Catalog) (lat lon : ℚ)
    (e : Err) (h : resolveListPoint provinces lat lon = .error e) :
    e = .runtimeError := by
  unfold resolveListPoint at h
  cases hm : findMatchingProvinceFine lat lon (findMatchingBoundingBoxes lat lon provinces) with
  | nil =>
    rw [hm] at h
    exact Except.noConfusion h
  | cons fp rest =>
    cases rest with
    | nil =>
      rw [hm] at h
      exact Except.noConfusion h
    | cons fq rest2 =>
      rw [hm] at h
      injection h with h2
      exact h2.symm

theorem resolveListPoint_eq_of_bb (provinces : Catalog) (lat lon : ℚ)
    (hbb : ∀ fp ∈ provinces,
        fp.2.provGeoms.any (fun g => g.containsP ⟨lat, lon⟩) = true →
        fp.2.provBB.containsP ⟨lat, lon⟩ = true) :
    resolveListPoint provinces lat lon =
      match provinces.filter
          (fun fp => fp.2.provGeoms.any (fun g => g.containsP ⟨lat, lon⟩)) with
      | [] => .ok none
      | [fp] => .ok (some fp.2)
      | _ :: _ :: _ => .error .runtimeError := by
  unfold resolveListPoint findMatchingProvinceFine findMatchingBoundingBoxes
  rw [List.filter_filter]
  have hfeq : provinces.filter
      (fun fp => (fp.2.provGeoms.any fun g => g.containsP ⟨lat, lon⟩) &&
        fp.2.provBB.containsP ⟨lat, lon⟩) =
      provinces.filter
        (fun fp => fp.2.provGeoms.any fun g => g.containsP ⟨lat, lon⟩) := by
    apply List.filter_congr
    intro fp hfp
    cases hf : fp.2.provGeoms.any (fun g => g.containsP ⟨lat, lon⟩) with
    | false => simp
    | true => simp [hbb fp hfp hf]
  rw [hfeq]
  rfl

theorem treeMatches_mem_iff (polys : List Polygon) (p : Point) (j : Nat) :
    j ∈ treeMatches polys p ↔
      j < polys.length ∧ coveredByP p (polys.getD j ⟨[], []⟩) = true := by
  unfold treeMatches
  constructor
  · intro h
    obtain ⟨jg, hjg, hfst⟩ := List.mem_map.mp h
    obtain ⟨henum, hcov⟩ := List.mem_filter.mp hjg
    obtain ⟨j2, g⟩ := jg
    simp only at hfst
    subst hfst
    have hb := List.mem_enumFrom henum
    obtain ⟨_, hlt, hget⟩ := hb
    simp only [Nat.zero_add, Nat.sub_zero] at hlt hget
    refine ⟨hlt, ?_⟩
    rw [List.getD_eq_getElem _ _ hlt, ← hget]
    exact hcov
  · rintro ⟨hj, hcov⟩
    have hle : j < polys.enum.length := by
      rw [List.enum_length]
      exact hj
    have hg : polys.enum[j] = (j, polys[j]) := List.getElem_enum _ _ hle
    have henum : (j, polys.getD j ⟨[], []⟩) ∈ polys.enum := by
      rw [List.getD_eq_getElem _ _ hj, ← hg]
      exact List.getElem_mem hle
    apply List.mem_map.mpr
    exact ⟨(j, polys.getD j ⟨[], []⟩), List.mem_filter.mpr ⟨henum, hcov⟩, rfl⟩

theorem lookup_mem_key (provinces : Catalog) (key : String)
    (h : key ∈ provinces.map Prod.fst) :
    ∃ prov, provinces.lookup key = some prov := by
  induction provinces with
  | nil => simp at h
  | cons fp rest ih =>
    by_cases hk : key = fp.1
    · refine ⟨fp.2, ?_⟩
      cases fp with
      | mk k v =>
        simp only at hk
        simp [List.lookup, hk]
    · rw [List.map_cons, List.mem_cons] at h
      rcases h with h | h
      · exact absurd h hk
      · obtain ⟨prov, hp⟩ := ih h
        refine ⟨prov, ?_⟩
        cases fp with
        | mk k v =>
          simp only at hk
          have hne : (key == k) = false := beq_eq_false_iff_ne.mpr hk
          simp [List.lookup, hne, hp]

/-- Index-level and province-level matching agree: a polygon of a catalog
province covers the point iff some index of the flattened tree owned by that
province covers it. -/
theorem cov_index_iff (provinces : Catalog) (p : Point)
    (hnodup : (provinces.map Prod.fst).Nodup) (fp : String × Province)
    (hfp : fp ∈ provinces) :
    (∃ g ∈ fp.2.provGeoms, coveredByP p g = true) ↔
      (∃ j ∈ treeMatches (provinces_make_tree provinces).1 p,
        ((provinces_make_tree provinces).2).getD j "" = fp.1) := by
  constructor
  · rintro ⟨g, hg, hcov⟩
    obtain ⟨j, hj, hgetg, hgetf⟩ := make_tree_mem provinces fp g hfp hg
    refine ⟨j, ?_, hgetf⟩
    rw [treeMatches_mem_iff]
    exact ⟨hj, by rw [hgetg]; exact hcov⟩
  · rintro ⟨j, hj, hgetf⟩
    rw [treeMatches_mem_iff] at hj
    obtain ⟨hjl, hcov⟩ := hj
    obtain ⟨fq, hfq, hfq1, hfq2⟩ := make_tree_owner provinces j hjl
    have : fq = fp := by
      apply mem_unique_of_key_nodup provinces hnodup fq fp hfq hfp
      rw [← hfq1, hgetf]
    rw [this] at hfq2
    exact ⟨_, hfq2, hcov⟩

theorem zip_getD_eq (latitude longitude : List ℚ) (k : Nat)
    (hk : k < latitude.length) (hk2 : k < longitude.length) :
    (latitude.zip longitude).getD k (0, 0) =
      (latitude.getD k 0, longitude.getD k 0) := by
  rw [List.getD_eq_getElem _ _ (by rw [List.length_zip]; omega), List.getElem_zip,
    List.getD_eq_getElem _ _ hk, List.getD_eq_getElem _ _ hk2]

theorem findRegionList_ok_pointwise (provinces : Catalog)
    (latitude longitude : List ℚ) (rs : List (Option Province))
    (h : findRegionList latitude longitude provinces = .ok rs) (k : Nat)
    (hk : k < latitude.length) (hk2 : k < longitude.length) :
    Except.ok (rs.getD k none) =
      resolveListPoint provinces (latitude.getD k 0) (longitude.getD k 0) := by
  unfold findRegionList at h
  have hp := exceptMap_ok_get _ _ _ h k (by rw [List.length_zip]; omega) (0, 0) none
  rw [zip_getD_eq latitude longitude k hk hk2] at hp
  exact hp.symm

theorem findRegionTree_ok_pointwise (provinces : Catalog)
    (latitude longitude : List ℚ) (tree : List Polygon) (fids : List String)
    (rs : List (Option Province)) (hlen : latitude.length = longitude.length)
    (h : findRegionTree latitude longitude provinces tree fids = .ok rs) (k : Nat)
    (hk : k < latitude.length) :
    Except.ok (rs.getD k none) =
      resolveTreeGroup provinces fids
        (treeMatches tree ⟨latitude.getD k 0, longitude.getD k 0⟩) := by
  unfold findRegionTree at h
  rw [if_pos hlen] at h
  have hp := exceptMap_ok_get _ _ _ h k
    (by rw [buildLocRegionIdMap_length]; omega) [] none
  rw [locRegionIdMap_eq latitude longitude tree hlen k hk] at hp
  exact hp.symm

theorem resolveListPoint_runtime_iff (provinces : Catalog) (lat lon : ℚ)
    (hbb : ∀ fp ∈ provinces,
        fp.2.provGeoms.any (fun g => g.containsP ⟨lat, lon⟩) = true →
        fp.2.provBB.containsP ⟨lat, lon⟩ = true) :
    resolveListPoint provinces lat lon = .error .runtimeError ↔
      1 < (provinces.filter (fun fp =>
        fp.2.provGeoms.any (fun g => g.containsP ⟨lat, lon⟩))).length := by
  rw [resolveListPoint_eq_of_bb provinces lat lon hbb]
  cases hm : provinces.filter
      (fun fp => fp.2.provGeoms.any (fun g => g.containsP ⟨lat, lon⟩)) with
  | nil =>
    constructor
    · intro h
      exact Except.noConfusion h
    · intro h
      simp at h
  | cons fp rest =>
    cases rest with
    | nil =>
      constructor
      · intro h
        exact Except.noConfusion h
      · intro h
        simp at h
    | cons fq rest2 =>
      simp only [List.length_cons]
      constructor
      · intro _
        omega
      · intro _
        trivial

theorem resolveTreeGroup_runtime_iff (provinces : Catalog) (fids : List String)
    (r : List Nat) :
    resolveTreeGroup provinces fids r = .error .runtimeError ↔ 1 < r.length := by
  cases r with
  | nil =>
    constructor
    · intro h
      exact Except.noConfusion h
    · intro h
      simp at h
  | cons j rest =>
    cases rest with
    | nil =>
      constructor
      · intro h
        simp only [resolveTreeGroup] at h
        cases hl : provinces.lookup (fids.getD j "") with
        | none =>
          rw [hl] at h
          injection h with h2
          exact Err.noConfusion h2
        | some prov =>
          rw [hl] at h
          exact Except.noConfusion h
      · intro h
        simp at h
    | cons j2 rest2 =>
      simp only [List.length_cons]
      constructor
      · intro _
        omega
      · intro _
        trivial

theorem resolveTreeGroup_matches_no_keyError (provinces : Catalog) (p : Point)
    (e : Err)
    (h : resolveTreeGroup provinces (provinces_make_tree provinces).2
        (treeMatches (provinces_make_tree provinces).1 p) = .error e) :
    e = .runtimeError := by
  cases hm : treeMatches (provinces_make_tree provinces).1 p with
  | nil =>
    rw [hm] at h
    exact Except.noConfusion h
  | cons j rest =>
    cases rest with
    | nil =>
      rw [hm] at h
      have hj : j ∈ treeMatches (provinces_make_tree provinces).1 p := by
        rw [hm]
        simp
      rw [treeMatches_mem_iff] at hj
      obtain ⟨fq, hfq, hfq1, _⟩ := make_tree_owner provinces j hj.1
      have hkey : ((provinces_make_tree provinces).2).getD j "" ∈
          provinces.map Prod.fst := by
        rw [hfq1]
        exact List.mem_map.mpr ⟨fq, hfq, rfl⟩
      obtain ⟨prov, hp⟩ := lookup_mem_key provinces _ hkey
      simp only [resolveTreeGroup] at h
      rw [hp] at h
      exact Except.noConfusion h
    | cons j2 rest2 =>
      rw [hm] at h
      simp only [resolveTreeGroup] at h
      injection h with h2
      exact h2.symm

/-! ### Claim theorems -/

/-- C9 (confirmed): provinces_make_tree returns a flattened polygon list and a
parallel fid list of equal length; the flattening visits provinces in catalog
order and each province's polygons in list order, and position i of the fid
list carries the identifier of the province that contributed polygon i (the
zip of the two lists is exactly the in-order flattening of (fid, polygon)
pairs, so the two lists are never reordered independently). -/
theorem C9_make_tree_mapping (provinces : Catalog) :
    ((provinces_make_tree provinces).2).length =
        ((provinces_make_tree provinces).1).length ∧
    (provinces_make_tree provinces).1 =
        provinces.flatMap (fun fp => fp.2.provGeoms) ∧
    ((provinces_make_tree provinces).2).zip (provinces_make_tree provinces).1 =
        provinces.flatMap (fun fp => fp.2.provGeoms.map (fun g => (fp.1, g))) :=
  ⟨make_tree_lengths provinces, by rw [provinces_make_tree_eq],
    make_tree_zip provinces⟩

/-- C10 (confirmed): calling find_region with a parsed definition, a pre-built
STRtree as provinces_tree and polygons_fids left None raises an AssertionError
(line 121) before any containment test or index query; no match result is
produced, for single-point and batch calls alike. -/
theorem C10_prebuilt_tree_requires_fids (latitude longitude : CoordArg)
    (longhurst_definition : Catalog) (tree : List Polygon) :
    find_region latitude longitude longhurst_definition (.preBuilt tree) none =
      .error .assertionError := by
  cases latitude <;> cases longitude <;> rfl

/-- C2 counterexample: the point (lat 0, lon 1) lies on the shell boundary of
the only polygon of catalog catA, yet the exact containment test is false
there and the matched set of _findMatchingProvinceFine is empty — the claim
that boundary points are treated as contained (covered-by) fails on the code,
which uses shapely's strictly-interior contains. -/
theorem C2_counterexample :
    onRing ⟨0, 1⟩ square2.shell = true ∧
    square2.containsP ⟨0, 1⟩ = false ∧
    findMatchingProvinceFine 0 1 catA = [] := by
  refine ⟨?_, ?_, ?_⟩ <;>
    norm_num [square2, catA, provA, bbPolygon, findMatchingProvinceFine,
      Polygon.containsP, oddCrossings, crossingNumber, ringEdges, crossesRay,
      straddles, crossX, onRing, onSegment]

/-- C2 amended (corrected): the exact containment test used to match a point
to a province is strictly-interior, not covered-by: it equals the covered-by
test minus the polygon boundary (shell and hole rings), any point on the
shell ring is not contained, and a province is matched by the fine test iff
some of its polygons strictly contains the query point — so a shell-boundary
point is matched only through another polygon. -/
theorem C2_containment_strict_interior :
    (∀ (g : Polygon) (p : Point),
        g.containsP p = (coveredByP p g && !g.onBoundary p)) ∧
    (∀ (g : Polygon) (p : Point), onRing p g.shell = true → g.containsP p = false) ∧
    (∀ (lat lon : ℚ) (provinces : Catalog) (fp : String × Province),
        fp ∈ findMatchingProvinceFine lat lon provinces ↔
          fp ∈ provinces ∧
            fp.2.provGeoms.any (fun g => g.containsP ⟨lat, lon⟩) = true) :=
  ⟨containsP_eq_coveredBy_and_not_boundary, containsP_false_of_onRing,
    mem_findMatchingProvinceFine⟩

/-- C4 (code_bug): the query point is built as shapely.Point(latitude,
longitude), i.e. x = latitude, contrary to the specified x = longitude
convention.  At lat=1, lon=5 against a province whose box and geometry are
the square [4,6] x [0,2]: the spec-convention point (x=5, y=1) is strictly
inside that box, yet the code's prefilter (testing (1, 5)) returns no
candidate and the whole linear matcher returns no match. -/
theorem C4_swapped_coordinates :
    (bbPolygon ⟨4, 0⟩ ⟨6, 2⟩).containsP ⟨5, 1⟩ = true ∧
    findMatchingBoundingBoxes 1 5 catE = [] ∧
    findRegionList [1] [5] catE = .ok [none] := by
  refine ⟨?_, ?_, ?_⟩ <;>
    norm_num [catE, provE, bbPolygon, findMatchingBoundingBoxes, findRegionList,
      exceptMap, resolveListPoint, findMatchingProvinceFine, Polygon.containsP,
      oddCrossings, crossingNumber, ringEdges, crossesRay, straddles, crossX,
      onRing, onSegment, List.zip_cons_cons]

/-- C6 counterexample: find_region with coordinate lists of lengths 2 and 1
under the linear strategy is not rejected: zip silently truncates and a
single-entry result list is returned. -/
theorem C6_counterexample :
    find_region (.batch [1, 7]) (.batch [1]) catA .noTree none =
      .ok (.many [some provA]) := by
  norm_num [find_region, findRegionCore, findRegionList, exceptMap,
    resolveListPoint, findMatchingProvinceFine, findMatchingBoundingBoxes, catA,
    provA, square2, bbPolygon, Polygon.containsP, oddCrossings, crossingNumber,
    ringEdges, crossesRay, straddles, crossX, onRing, onSegment,
    List.zip_cons_cons]

/-- C6 amended (corrected): only the indexed strategy rejects mismatched
coordinate lengths (AssertionError at line 174, before any matching work,
whether the tree is pre-built or built on the fly); the linear strategy
performs no length check, silently zips the two lists and returns one result
per truncated pair (min of the two lengths). -/
theorem C6_mismatched_lengths (provinces : Catalog) (tree : List Polygon)
    (fids : List String) (lats lons : List ℚ)
    (hlen : lats.length ≠ lons.length) :
    find_region (.batch lats) (.batch lons) provinces (.preBuilt tree) (some fids) =
      .error .assertionError ∧
    find_region (.batch lats) (.batch lons) provinces .computeTree none =
      .error .assertionError ∧
    (∀ rs, find_region (.batch lats) (.batch lons) provinces .noTree none =
        .ok (.many rs) → rs.length = min lats.length lons.length) := by
  refine ⟨?_, ?_, ?_⟩
  · simp [find_region, findRegionCore, findRegionTree, hlen]
  · simp [find_region, findRegionCore, findRegionTree, hlen]
  · intro rs h
    simp only [find_region, findRegionCore] at h
    cases hfl : findRegionList lats lons provinces with
    | error e =>
      rw [hfl] at h
      exact Except.noConfusion h
    | ok regions =>
      rw [hfl] at h
      have hreg : FindResult.many regions = FindResult.many rs := by injection h
      have hrs : regions = rs := by injection hreg
      rw [← hrs]
      have h2 := findRegionList_ok_length lats lons provinces regions hfl
      rw [List.length_zip] at h2
      exact h2

/-- C6 witness: the indexed-strategy rejection at a concrete mismatched call. -/
theorem C6_mismatched_lengths_witness :
    find_region (.batch [(1 : ℚ), 7]) (.batch [1]) catA (.preBuilt []) (some []) =
      .error .assertionError :=
  (C6_mismatched_lengths catA [] [] [1, 7] [1] (by decide)).1

/-- C3 counterexample: catalog catC stores the box [0,2]x[0,2] for a province
whose geometry is the bigger square; at (lat 0, lon 1) the exact containment
test is true for a polygon of the province and the point lies exactly on the
stored box's edge, yet _findMatchingBoundingBoxes excludes the province —
the bounding-box test is shapely's boundary-exclusive contains, not
boundary-inclusive. -/
theorem C3_counterexample :
    bigSquare.containsP ⟨0, 1⟩ = true ∧
    onRing ⟨0, 1⟩ (bbPolygon ⟨0, 0⟩ ⟨2, 2⟩).shell = true ∧
    findMatchingBoundingBoxes 0 1 catC = [] := by
  refine ⟨?_, ?_, ?_⟩ <;>
    norm_num [bigSquare, catC, provC, bbPolygon, findMatchingBoundingBoxes,
      Polygon.containsP, oddCrossings, crossingNumber, ringEdges, crossesRay,
      straddles, crossX, onRing, onSegment]

/-- C3 amended (corrected): the bounding-box prefilter is boundary-exclusive,
so its soundness holds away from the box edge: if a polygon of province Q
(whose stored box is the parser's rectangle over corners b0, b1 and bounds
the polygon's shell vertices) strictly contains the query point, and the
point does not lie exactly on the box's boundary ring, then
_findMatchingBoundingBoxes includes Q; a point exactly on the box edge may
be excluded (see the counterexample). -/
theorem C3_bb_prefilter_sound (provinces : Catalog) (lat lon : ℚ)
    (fp : String × Province) (b0 b1 : Point) (g : Polygon)
    (hmem : fp ∈ provinces)
    (hbb : fp.2.provBB = bbPolygon b0 b1)
    (_hg : g ∈ fp.2.provGeoms)
    (hvert : ∀ v ∈ g.shell, b0.x ≤ v.x ∧ v.x ≤ b1.x ∧ b0.y ≤ v.y ∧ v.y ≤ b1.y)
    (hcont : g.containsP ⟨lat, lon⟩ = true)
    (hedge : onRing ⟨lat, lon⟩ (bbPolygon b0 b1).shell = false) :
    fp ∈ findMatchingBoundingBoxes lat lon provinces := by
  unfold Polygon.containsP at hcont
  rw [Bool.and_eq_true] at hcont
  obtain ⟨h1, _⟩ := hcont
  rw [Bool.and_eq_true] at h1
  obtain ⟨hodd, hnr⟩ := h1
  have hnr2 : onRing ⟨lat, lon⟩ g.shell = false := by simpa using hnr
  have hb := odd_offRing_bounds g.shell ⟨lat, lon⟩ b0.x b1.x b0.y b1.y hvert hodd hnr2
  have hy0 : b0.y < (⟨lat, lon⟩ : Point).y := by
    rcases lt_or_eq_of_le hb.2.2.1 with h | h
    · exact h
    · exfalso
      have hbot := bbPolygon_onRing_bottom b0 b1 ⟨lat, lon⟩ h.symm
        (le_of_lt hb.1) (le_of_lt hb.2.1)
      rw [hbot] at hedge
      exact Bool.noConfusion hedge
  have hrect := bbPolygon_contains_of_strict b0 b1 ⟨lat, lon⟩ hb.1 hb.2.1 hy0 hb.2.2.2
  rw [mem_findMatchingBoundingBoxes]
  refine ⟨hmem, ?_⟩
  rw [hbb]
  exact hrect

/-- C3 witness: a point strictly inside a province's box passes the prefilter. -/
theorem C3_bb_prefilter_sound_witness :
    ("fidE", provE) ∈ findMatchingBoundingBoxes 5 1 catE := by
  apply C3_bb_prefilter_sound catE 5 1 ("fidE", provE) ⟨4, 0⟩ ⟨6, 2⟩
    (bbPolygon ⟨4, 0⟩ ⟨6, 2⟩)
  · norm_num [catE]
  · norm_num [provE]
  · norm_num [provE]
  · norm_num [bbPolygon, List.forall_mem_cons]
  · norm_num [bbPolygon, Polygon.containsP, oddCrossings, crossingNumber,
      ringEdges, crossesRay, straddles, crossX, onRing, onSegment]
  · norm_num [bbPolygon, onRing, ringEdges, onSegment]

/-- C8 (confirmed): when both coordinates are passed as single floats, a
successful find_region call returns the unwrapped single result (never a
list); when both are passed as lists of equal length (including length one
and zero), it returns a list with exactly one entry per input point. -/
theorem C8_single_unwrap (provinces : Catalog) (a b : ℚ) (lats lons : List ℚ)
    (treeArg : TreeArg) (fids : Option (List String))
    (hlen : lats.length = lons.length) :
    (∀ res, find_region (.single a) (.single b) provinces treeArg fids = .ok res →
        res.isOne = true) ∧
    (∀ res, find_region (.batch lats) (.batch lons) provinces treeArg fids = .ok res →
        res.isOne = false ∧ res.numResults = lats.length) := by
  constructor
  · intro res h
    simp only [find_region] at h
    cases hcore : findRegionCore [a] [b] provinces treeArg fids with
    | error e => rw [hcore] at h; exact Except.noConfusion h
    | ok regions =>
      rw [hcore] at h
      have : FindResult.one (regions.getD 0 none) = res := by injection h
      rw [← this]
      rfl
  · intro res h
    simp only [find_region] at h
    cases hcore : findRegionCore lats lons provinces treeArg fids with
    | error e => rw [hcore] at h; exact Except.noConfusion h
    | ok regions =>
      rw [hcore] at h
      have hres : FindResult.many regions = res := by injection h
      rw [← hres]
      refine ⟨rfl, ?_⟩
      show regions.length = lats.length
      cases treeArg with
      | noTree =>
        have h2 := findRegionList_ok_length lats lons provinces regions hcore
        rw [List.length_zip] at h2
        omega
      | computeTree =>
        exact findRegionTree_ok_length lats lons provinces _ _ regions hcore
      | preBuilt tree =>
        cases fids with
        | none => exact Except.noConfusion hcore
        | some f => exact findRegionTree_ok_length lats lons provinces _ _ regions hcore

/-- C8 witness: a concrete single-float call whose result is the unwrapped
province record. -/
theorem C8_single_unwrap_witness : (FindResult.one (some provA)).isOne = true := by
  apply (C8_single_unwrap catA 1 1 [1] [1] .noTree none rfl).1
  norm_num [find_region, findRegionCore, findRegionList, exceptMap,
    resolveListPoint, findMatchingProvinceFine, findMatchingBoundingBoxes, catA,
    provA, square2, bbPolygon, Polygon.containsP, oddCrossings, crossingNumber,
    ringEdges, crossesRay, straddles, crossX, onRing, onSegment,
    List.zip_cons_cons]

set_option maxHeartbeats 2000000 in
/-- C1 counterexample: on catalog catA and the single point (lat 0, lon 1),
which lies on the boundary of the only polygon, neither strategy raises, yet
the linear strategy (strict contains) returns no match while the indexed
strategy (covered_by) returns the province — the two result lists differ. -/
theorem C1_counterexample :
    findRegionList [0] [1] catA = .ok [none] ∧
    findRegionTree [0] [1] catA (provinces_make_tree catA).1
        (provinces_make_tree catA).2 = .ok [some provA] ∧
    ([none] : List (Option Province)) ≠ [some provA] := by
  refine ⟨?_, ?_, by simp⟩
  · norm_num [findRegionList, exceptMap, resolveListPoint,
      findMatchingProvinceFine, findMatchingBoundingBoxes, catA, provA, square2,
      bbPolygon, Polygon.containsP, oddCrossings, crossingNumber, ringEdges,
      crossesRay, straddles, crossX, onRing, onSegment]
  · norm_num [findRegionTree, provinces_make_tree, catA, provA, square2,
      bbPolygon, exceptMap, resolveTreeGroup, buildLocRegionIdMap,
      findMatchingProvinceTree, strtreeQueryCoveredBy, treeMatches, List.enum,
      List.enumFrom, coveredByP, oddCrossings, crossingNumber, ringEdges,
      crossesRay, straddles, crossX, onRing, onSegment, List.lookup]

/-- C1 amended (corrected): the two strategies return identical ordered
result lists for batches on which neither raises, provided additionally that
no query point lies on the boundary (shell or hole ring) of any catalog
polygon — boundary points are covered-by for the index but not contained for
the linear scan — that the stored bounding boxes never exclude a containing
province, and that province identifiers are distinct. -/
theorem C1_strategy_equivalence (provinces : Catalog) (latitude longitude : List ℚ)
    (hnodup : (provinces.map Prod.fst).Nodup)
    (hbnd : ∀ ll ∈ latitude.zip longitude, ∀ fp ∈ provinces, ∀ g ∈ fp.2.provGeoms,
        onRing ⟨ll.1, ll.2⟩ g.shell = false ∧
        ∀ h ∈ g.holes, onRing ⟨ll.1, ll.2⟩ h = false)
    (hbb : ∀ ll ∈ latitude.zip longitude, ∀ fp ∈ provinces,
        fp.2.provGeoms.any (fun g => g.containsP ⟨ll.1, ll.2⟩) = true →
        fp.2.provBB.containsP ⟨ll.1, ll.2⟩ = true)
    (rs ts : List (Option Province))
    (hl : findRegionList latitude longitude provinces = .ok rs)
    (ht : findRegionTree latitude longitude provinces
        (provinces_make_tree provinces).1 (provinces_make_tree provinces).2 =
          .ok ts) :
    rs = ts := by
  have hlen : latitude.length = longitude.length := by
    by_contra hne
    unfold findRegionTree at ht
    rw [if_neg hne] at ht
    exact Except.noConfusion ht
  have hrs : rs.length = latitude.length := by
    have h2 := findRegionList_ok_length _ _ _ _ hl
    rw [List.length_zip] at h2
    omega
  have hts := findRegionTree_ok_length _ _ _ _ _ _ ht
  apply List.ext_getElem (by omega)
  intro k hk1 hk2
  have hk : k < latitude.length := by omega
  have hpl := findRegionList_ok_pointwise provinces latitude longitude rs hl k hk
    (by omega)
  have hpt := findRegionTree_ok_pointwise provinces latitude longitude _ _ ts hlen
    ht k hk
  have hmem : (latitude.getD k 0, longitude.getD k 0) ∈ latitude.zip longitude := by
    rw [← zip_getD_eq latitude longitude k hk (by omega)]
    exact (mem_iff_getD _ (0, 0) _).mpr ⟨k, by rw [List.length_zip]; omega, rfl⟩
  rw [resolveListPoint_eq_of_bb provinces _ _ (hbb _ hmem)] at hpl
  set p : Point := ⟨latitude.getD k 0, longitude.getD k 0⟩ with hpdef
  have hcc : ∀ fp ∈ provinces, ∀ g ∈ fp.2.provGeoms,
      coveredByP p g = g.containsP p := by
    intro fp hfp g hg
    have hb := hbnd _ hmem fp hfp g hg
    exact coveredByP_eq_containsP_off_boundary g p hb.1 hb.2
  cases hm : treeMatches (provinces_make_tree provinces).1 p with
  | nil =>
    rw [hm] at hpt
    simp only [resolveTreeGroup] at hpt
    have ht2 : ts.getD k none = none := by injection hpt
    have hfe : provinces.filter (fun fp => fp.2.provGeoms.any
        (fun g => g.containsP p)) = [] := by
      rw [List.filter_eq_nil_iff]
      intro fp hfp hany
      rw [List.any_eq_true] at hany
      obtain ⟨g, hg, hcg⟩ := hany
      have hcov : coveredByP p g = true := by
        rw [hcc fp hfp g hg]
        exact hcg
      obtain ⟨j, hj, _⟩ :=
        (cov_index_iff provinces p hnodup fp hfp).mp ⟨g, hg, hcov⟩
      rw [hm] at hj
      cases hj
    rw [hfe] at hpl
    have hl2 : rs.getD k none = none := by injection hpl
    rw [← List.getD_eq_getElem rs none hk1, ← List.getD_eq_getElem ts none hk2,
      hl2, ht2]
  | cons j rest =>
    cases rest with
    | cons j2 rest2 =>
      rw [hm] at hpt
      simp only [resolveTreeGroup] at hpt
      exact Except.noConfusion hpt
    | nil =>
      rw [hm] at hpt
      simp only [resolveTreeGroup] at hpt
      have hj : j ∈ treeMatches (provinces_make_tree provinces).1 p := by
        rw [hm]
        simp
      rw [treeMatches_mem_iff] at hj
      obtain ⟨hjl, hjcov⟩ := hj
      obtain ⟨fo, hfo, hfo1, hfo2⟩ := make_tree_owner provinces j hjl
      have hlk : provinces.lookup (((provinces_make_tree provinces).2).getD j "") =
          some fo.2 := by
        rw [hfo1]
        apply lookup_eq_some_of_mem provinces hnodup fo.1 fo.2
        rw [Prod.mk.eta]
        exact hfo
      rw [hlk] at hpt
      have ht2 : ts.getD k none = some fo.2 := by injection hpt
      have hsingle : provinces.filter (fun fp => fp.2.provGeoms.any
          (fun g => g.containsP p)) = [fo] := by
        apply filter_eq_singleton_of_unique provinces _ fo hfo ?_
          (List.Nodup.of_map Prod.fst hnodup)
        intro fp hfp
        constructor
        · intro hany
          rw [List.any_eq_true] at hany
          obtain ⟨g, hg, hcg⟩ := hany
          have hcov : coveredByP p g = true := by
            rw [hcc fp hfp g hg]
            exact hcg
          obtain ⟨j2, hj2, hkey⟩ :=
            (cov_index_iff provinces p hnodup fp hfp).mp ⟨g, hg, hcov⟩
          rw [hm] at hj2
          have hj2e : j2 = j := by simpa using hj2
          rw [hj2e] at hkey
          apply mem_unique_of_key_nodup provinces hnodup fp fo hfp hfo
          rw [← hkey, hfo1]
        · intro heq
          rw [heq]
          rw [List.any_eq_true]
          refine ⟨((provinces_make_tree provinces).1).getD j ⟨[], []⟩, hfo2, ?_⟩
          rw [← hcc fo hfo _ hfo2]
          exact hjcov
      rw [hsingle] at hpl
      have hl2 : rs.getD k none = some fo.2 := by injection hpl
      rw [← List.getD_eq_getElem rs none hk1, ← List.getD_eq_getElem ts none hk2,
        hl2, ht2]

set_option maxHeartbeats 2000000 in
/-- C1 witness: on a concrete interior point both strategies return the same
single-entry result list. -/
theorem C1_strategy_equivalence_witness :
    ([some provA] : List (Option Province)) = [some provA] := by
  apply C1_strategy_equivalence catA [1] [1] (by simp [catA])
  · intro ll hll fp hfp g hg
    simp only [List.zip_cons_cons, List.zip_nil_right, List.mem_singleton] at hll
    simp only [catA, List.mem_singleton] at hfp
    subst hll
    subst hfp
    simp only [provA, List.mem_singleton] at hg
    subst hg
    constructor
    · norm_num [square2, onRing, ringEdges, onSegment]
    · intro h hh
      simp [square2] at hh
  · intro ll hll fp hfp _
    simp only [List.zip_cons_cons, List.zip_nil_right, List.mem_singleton] at hll
    simp only [catA, List.mem_singleton] at hfp
    subst hll
    subst hfp
    norm_num [provA, bbPolygon, Polygon.containsP, oddCrossings, crossingNumber,
      ringEdges, crossesRay, straddles, crossX, onRing, onSegment]
  · norm_num [findRegionList, exceptMap, resolveListPoint,
      findMatchingProvinceFine, findMatchingBoundingBoxes, catA, provA, square2,
      bbPolygon, Polygon.containsP, oddCrossings, crossingNumber, ringEdges,
      crossesRay, straddles, crossX, onRing, onSegment, List.zip_cons_cons]
  · norm_num [findRegionTree, provinces_make_tree, catA, provA, square2,
      bbPolygon, exceptMap, resolveTreeGroup, buildLocRegionIdMap,
      findMatchingProvinceTree, strtreeQueryCoveredBy, treeMatches, List.enum,
      List.enumFrom, coveredByP, Polygon.containsP, oddCrossings, crossingNumber,
      ringEdges, crossesRay, straddles, crossX, onRing, onSegment, List.lookup,
      List.zip_cons_cons]

set_option maxHeartbeats 2000000 in
/-- C5 counterexample: catalog catD has a single province listing the same
square polygon twice; at (lat 1, lon 1) exactly one province's geometry
contains the point, the linear strategy returns its record, yet the indexed
strategy raises RuntimeError — the error condition is not "more than one
province contains some point" under both strategies. -/
theorem C5_counterexample :
    findRegionTree [1] [1] catD (provinces_make_tree catD).1
        (provinces_make_tree catD).2 = .error .runtimeError ∧
    (catD.filter (fun fp =>
      fp.2.provGeoms.any (fun g => g.containsP ⟨1, 1⟩))).length = 1 ∧
    findRegionList [1] [1] catD = .ok [some provD] := by
  refine ⟨?_, ?_, ?_⟩ <;>
    norm_num [findRegionTree, findRegionList, provinces_make_tree, catD, provD,
      square2, bbPolygon, exceptMap, resolveTreeGroup, resolveListPoint,
      buildLocRegionIdMap, findMatchingProvinceTree, strtreeQueryCoveredBy,
      treeMatches, findMatchingProvinceFine, findMatchingBoundingBoxes,
      List.enum, List.enumFrom, coveredByP, Polygon.containsP, oddCrossings,
      crossingNumber, ringEdges, crossesRay, straddles, crossX, onRing, onSegment,
      List.lookup, List.zip_cons_cons]

/-- C5 amended (corrected): for catalogs whose bounding boxes never exclude a
containing province and batches of equal length — the linear strategy
resolves each point against the number of provinces whose geometry strictly
contains it (None for zero, the unique record for one, RuntimeError iff some
point has more than one), while the indexed strategy resolves each point
against the number of covering (boundary-inclusive) polygon entries of the
flattened tree: None for zero, the looked-up record for a unique entry, and
RuntimeError iff some point is covered by more than one entry — even when
all those entries belong to a single province. -/
theorem C5_match_resolution (provinces : Catalog) (latitude longitude : List ℚ)
    (hbb : ∀ ll ∈ latitude.zip longitude, ∀ fp ∈ provinces,
        fp.2.provGeoms.any (fun g => g.containsP ⟨ll.1, ll.2⟩) = true →
        fp.2.provBB.containsP ⟨ll.1, ll.2⟩ = true)
    (hlen : latitude.length = longitude.length) :
    (findRegionList latitude longitude provinces = .error .runtimeError ↔
      ∃ ll ∈ latitude.zip longitude,
        1 < (provinces.filter (fun fp =>
          fp.2.provGeoms.any (fun g => g.containsP ⟨ll.1, ll.2⟩))).length) ∧
    (∀ rs, findRegionList latitude longitude provinces = .ok rs →
      ∀ k, k < latitude.length →
        ((rs.getD k none = none ↔
          provinces.filter (fun fp => fp.2.provGeoms.any (fun g =>
            g.containsP ⟨latitude.getD k 0, longitude.getD k 0⟩)) = []) ∧
         ∀ fp, provinces.filter (fun fp2 => fp2.2.provGeoms.any (fun g =>
            g.containsP ⟨latitude.getD k 0, longitude.getD k 0⟩)) = [fp] →
          rs.getD k none = some fp.2)) ∧
    (findRegionTree latitude longitude provinces (provinces_make_tree provinces).1
        (provinces_make_tree provinces).2 = .error .runtimeError ↔
      ∃ ll ∈ latitude.zip longitude,
        1 < (treeMatches (provinces_make_tree provinces).1 ⟨ll.1, ll.2⟩).length) ∧
    (∀ rs, findRegionTree latitude longitude provinces
        (provinces_make_tree provinces).1 (provinces_make_tree provinces).2 =
          .ok rs →
      ∀ k, k < latitude.length →
        ((rs.getD k none = none ↔
          treeMatches (provinces_make_tree provinces).1
            ⟨latitude.getD k 0, longitude.getD k 0⟩ = []) ∧
         ∀ j prov, treeMatches (provinces_make_tree provinces).1
            ⟨latitude.getD k 0, longitude.getD k 0⟩ = [j] →
          provinces.lookup (((provinces_make_tree provinces).2).getD j "") =
            some prov →
          rs.getD k none = some prov)) := by
  have hziplen : (latitude.zip longitude).length = latitude.length := by
    rw [List.length_zip]
    omega
  refine ⟨?_, ?_, ?_, ?_⟩
  · unfold findRegionList
    rw [exceptMap_error_iff _ _ _ (fun x _ e he =>
      resolveListPoint_error_runtime provinces x.1 x.2 e he)]
    constructor
    · rintro ⟨ll, hll, he⟩
      exact ⟨ll, hll, (resolveListPoint_runtime_iff provinces ll.1 ll.2
        (hbb ll hll)).mp he⟩
    · rintro ⟨ll, hll, hcnt⟩
      exact ⟨ll, hll, (resolveListPoint_runtime_iff provinces ll.1 ll.2
        (hbb ll hll)).mpr hcnt⟩
  · intro rs h k hk
    have hp := findRegionList_ok_pointwise provinces latitude longitude rs h k hk
      (by omega)
    have hmem : (latitude.getD k 0, longitude.getD k 0) ∈ latitude.zip longitude := by
      rw [← zip_getD_eq latitude longitude k hk (by omega)]
      exact (mem_iff_getD _ (0, 0) _).mpr ⟨k, by omega, rfl⟩
    rw [resolveListPoint_eq_of_bb provinces _ _ (hbb _ hmem)] at hp
    cases hm : provinces.filter (fun fp => fp.2.provGeoms.any
        (fun g => g.containsP ⟨latitude.getD k 0, longitude.getD k 0⟩)) with
    | nil =>
      rw [hm] at hp
      have h2 : rs.getD k none = none := by injection hp
      refine ⟨⟨fun _ => rfl, fun _ => h2⟩, ?_⟩
      intro fp habs
      exact List.noConfusion habs
    | cons fp rest =>
      cases rest with
      | nil =>
        rw [hm] at hp
        have h2 : rs.getD k none = some fp.2 := by injection hp
        refine ⟨⟨?_, ?_⟩, ?_⟩
        · intro h0
          rw [h0] at h2
          exact Option.noConfusion h2
        · intro habs
          exact List.noConfusion habs
        · intro fq heq
          have hfq : fp = fq := by injection heq
          rw [← hfq]
          exact h2
      | cons fq rest2 =>
        rw [hm] at hp
        exact Except.noConfusion hp
  · unfold findRegionTree
    rw [if_pos hlen]
    have herr : ∀ r ∈ buildLocRegionIdMap latitude.length
        (findMatchingProvinceTree latitude longitude
          (provinces_make_tree provinces).1),
        ∀ e, resolveTreeGroup provinces (provinces_make_tree provinces).2 r =
          .error e → e = .runtimeError := by
      intro r hr e he
      obtain ⟨k, hk, hre⟩ := (mem_iff_getD _ [] _).mp hr
      rw [buildLocRegionIdMap_length] at hk
      rw [locRegionIdMap_eq latitude longitude _ hlen k hk] at hre
      rw [← hre] at he
      exact resolveTreeGroup_matches_no_keyError provinces _ e he
    rw [exceptMap_error_iff _ _ _ herr]
    constructor
    · rintro ⟨r, hr, he⟩
      obtain ⟨k, hk, hre⟩ := (mem_iff_getD _ [] _).mp hr
      rw [buildLocRegionIdMap_length] at hk
      rw [locRegionIdMap_eq latitude longitude _ hlen k hk] at hre
      refine ⟨(latitude.getD k 0, longitude.getD k 0), ?_, ?_⟩
      · rw [← zip_getD_eq latitude longitude k hk (by omega)]
        exact (mem_iff_getD _ (0, 0) _).mpr ⟨k, by omega, rfl⟩
      · rw [← hre] at he
        have hlt := (resolveTreeGroup_runtime_iff provinces _ _).mp he
        exact hlt
    · rintro ⟨ll, hll, hcnt⟩
      obtain ⟨k, hk, hre⟩ := (mem_iff_getD _ (0, 0) _).mp hll
      rw [hziplen] at hk
      rw [zip_getD_eq latitude longitude k hk (by omega)] at hre
      refine ⟨treeMatches (provinces_make_tree provinces).1 ⟨ll.1, ll.2⟩, ?_, ?_⟩
      · apply (mem_iff_getD _ [] _).mpr
        refine ⟨k, by rw [buildLocRegionIdMap_length]; omega, ?_⟩
        rw [locRegionIdMap_eq latitude longitude _ hlen k hk]
        rw [← hre]
      · exact (resolveTreeGroup_runtime_iff provinces _ _).mpr hcnt
  · intro rs h k hk
    have hp := findRegionTree_ok_pointwise provinces latitude longitude _ _ rs
      hlen h k hk
    cases hm : treeMatches (provinces_make_tree provinces).1
        ⟨latitude.getD k 0, longitude.getD k 0⟩ with
    | nil =>
      rw [hm] at hp
      simp only [resolveTreeGroup] at hp
      have h2 : rs.getD k none = none := by injection hp
      refine ⟨⟨fun _ => rfl, fun _ => h2⟩, ?_⟩
      intro j prov habs _
      exact List.noConfusion habs
    | cons j rest =>
      cases rest with
      | nil =>
        rw [hm] at hp
        simp only [resolveTreeGroup] at hp
        cases hl : provinces.lookup (((provinces_make_tree provinces).2).getD j "")
          with
        | none =>
          rw [hl] at hp
          exact Except.noConfusion hp
        | some prov =>
          rw [hl] at hp
          have h2 : rs.getD k none = some prov := by injection hp
          refine ⟨⟨?_, ?_⟩, ?_⟩
          · intro h0
            rw [h0] at h2
            exact Option.noConfusion h2
          · intro habs
            exact List.noConfusion habs
          · intro j2 prov2 heq hlk
            have hj : j = j2 := by injection heq
            rw [← hj] at hlk
            rw [hl] at hlk
            have hpv : prov = prov2 := by injection hlk
            rw [← hpv]
            exact h2
      | cons j2 rest2 =>
        rw [hm] at hp
        simp only [resolveTreeGroup] at hp
        exact Except.noConfusion hp

set_option maxHeartbeats 2000000 in
/-- C5 witness: the linear-strategy error condition instantiated at a
concrete one-point batch. -/
theorem C5_match_resolution_witness :
    findRegionList [(1 : ℚ)] [(1 : ℚ)] catA = .error .runtimeError ↔
      ∃ ll ∈ [(1 : ℚ)].zip [(1 : ℚ)],
        1 < (catA.filter (fun fp =>
          fp.2.provGeoms.any (fun g => g.containsP ⟨ll.1, ll.2⟩))).length :=
  (C5_match_resolution catA [1] [1]
    (by
      intro ll hll fp hfp _
      simp only [List.zip_cons_cons, List.zip_nil_right, List.mem_singleton] at hll
      simp only [catA, List.mem_singleton] at hfp
      subst hll
      subst hfp
      norm_num [provA, bbPolygon, Polygon.containsP, oddCrossings, crossingNumber,
        ringEdges, crossesRay, straddles, crossX, onRing, onSegment])
    rfl).1

/-- C7 (confirmed): for a batch of N coordinate pairs on which no error is
raised, both strategies return exactly N results and entry k is the match
result for input point k alone — for the linear strategy the per-point
resolution of (latitude[k], longitude[k]), and for the indexed strategy the
resolution of the covering polygon indices of that very point, independent of
how the bulk query orders or groups its pairs; this holds for every N
including 0 and 1. -/
theorem C7_order_preservation (provinces : Catalog) (latitude longitude : List ℚ)
    (tree : List Polygon) (fids : List String)
    (hlen : latitude.length = longitude.length) :
    (∀ rs, findRegionList latitude longitude provinces = .ok rs →
        rs.length = latitude.length ∧
        ∀ k, k < latitude.length →
          Except.ok (rs.getD k none) =
            resolveListPoint provinces (latitude.getD k 0) (longitude.getD k 0)) ∧
    (∀ rs, findRegionTree latitude longitude provinces tree fids = .ok rs →
        rs.length = latitude.length ∧
        ∀ k, k < latitude.length →
          Except.ok (rs.getD k none) =
            resolveTreeGroup provinces fids
              (treeMatches tree ⟨latitude.getD k 0, longitude.getD k 0⟩)) := by
  have hziplen : (latitude.zip longitude).length = latitude.length := by
    rw [List.length_zip]
    omega
  constructor
  · intro rs h
    have hl := findRegionList_ok_length _ _ _ _ h
    rw [hziplen] at hl
    refine ⟨hl, ?_⟩
    intro k hk
    unfold findRegionList at h
    have hp := exceptMap_ok_get _ _ _ h k (by omega) (0, 0) none
    have hzip : (latitude.zip longitude).getD k (0, 0) =
        (latitude.getD k 0, longitude.getD k 0) := by
      rw [List.getD_eq_getElem _ _ (by omega), List.getElem_zip,
        List.getD_eq_getElem _ _ hk, List.getD_eq_getElem _ _ (by omega)]
    rw [hzip] at hp
    exact hp.symm
  · intro rs h
    have hlen2 := findRegionTree_ok_length _ _ _ _ _ _ h
    refine ⟨hlen2, ?_⟩
    intro k hk
    unfold findRegionTree at h
    rw [if_pos hlen] at h
    have hp := exceptMap_ok_get _ _ _ h k
      (by rw [buildLocRegionIdMap_length]; omega) [] none
    rw [locRegionIdMap_eq latitude longitude tree hlen k hk] at hp
    exact hp.symm

/-- C7 witness: a concrete one-point batch under the linear strategy. -/
theorem C7_order_preservation_witness :
    ([some provA] : List (Option Province)).length = [(1 : ℚ)].length ∧
    ∀ k, k < [(1 : ℚ)].length →
      Except.ok (([some provA] : List (Option Province)).getD k none) =
        resolveListPoint catA ([(1 : ℚ)].getD k 0) ([(1 : ℚ)].getD k 0) := by
  apply (C7_order_preservation catA [1] [1] [] [] rfl).1
  norm_num [findRegionList, exceptMap, resolveListPoint, findMatchingProvinceFine,
    findMatchingBoundingBoxes, catA, provA, square2, bbPolygon, Polygon.containsP,
    oddCrossings, crossingNumber, ringEdges, crossesRay, straddles, crossX, onRing,
    onSegment, List.zip_cons_cons]

end LatLonRegion
